import Mathlib

/-!
Verification development for the libevent `evbuffer` chained byte buffer
(`include/event2/buffer.h`).  The repository ships only the public header;
the behaviour of each operation is modelled from the specification's data
model (§3), mutation contracts (§4.1–§4.5) and the header's own doc
comments.  A byte is a `Nat`; a segment (chain link) is the list of its
live bytes, i.e. the range `[misalign, misalign+off)` of the C segment;
the logical byte stream of a buffer is the concatenation of its segments.
-/

set_option autoImplicit false



/-- Modelled from the spec: an evbuffer owns a chain of segments, a
front-freeze flag, a back-freeze flag and a reserved-but-uncommitted byte
count (`reserve_space`/`commit_space`).  `total_len` is not a separate
field: it is recovered as the sum of segment lengths, which is the spec's
stated invariant for it. -/
structure Evbuffer where
  chain : List (List Nat)
  frontFrozen : Bool
  backFrozen : Bool
  reservedLen : Nat
deriving DecidableEq, Repr

/-- Modelled from the spec: buffers are created empty. -/
def evbuffer_new : Evbuffer := ⟨[], false, false, 0⟩

/-- Modelled from the spec: `evbuffer_get_length` returns `total_len`,
the sum of `off` across all segments. -/
def evbuffer_get_length (b : Evbuffer) : Nat :=
  (b.chain.map List.length).sum

/-- The logical byte stream of a buffer: its segments concatenated. -/
def evbuffer_contents (b : Evbuffer) : List Nat :=
  b.chain.flatten

/-- Modelled from the spec (§4.1 drain policy): walk from the head,
unlinking fully covered segments and advancing the first partially covered
one; draining more than the total drains everything. -/
def chainDrain : List (List Nat) → Nat → List (List Nat)
  | [], _ => []
  | seg :: rest, n =>
    if n = 0 then seg :: rest
    else if seg.length ≤ n then chainDrain rest (n - seg.length)
    else seg.drop n :: rest

/-- Modelled from the spec (`remove`): copy up to `n` bytes from the head,
segment by segment. -/
def chainCopy : List (List Nat) → Nat → List Nat
  | [], _ => []
  | seg :: rest, n =>
    if n ≤ seg.length then seg.take n
    else seg ++ chainCopy rest (n - seg.length)

/-- Modelled from the spec (`remove_buffer`): the first `n` bytes of a
chain as whole relinked segments, the boundary segment split by copy. -/
def chainTakeSegs : List (List Nat) → Nat → List (List Nat)
  | [], _ => []
  | seg :: rest, n =>
    if n = 0 then []
    else if seg.length ≤ n then seg :: chainTakeSegs rest (n - seg.length)
    else [seg.take n]

/-- Modelled from the spec: `add(data, n)` appends the bytes at the tail
(here as a fresh tail segment; the spec's allocation policy §4.1 leaves
the segment boundaries unobservable through the byte stream); fails when
the back is frozen. -/
def evbuffer_add (b : Evbuffer) (data : List Nat) : Option Evbuffer :=
  if b.backFrozen then none
  else some { b with chain := b.chain ++ [data] }

/-- Modelled from the spec: `prepend(data, n)` puts the bytes in front of
the head; fails when the front is frozen. -/
def evbuffer_prepend (b : Evbuffer) (data : List Nat) : Option Evbuffer :=
  if b.frontFrozen then none
  else some { b with chain := data :: b.chain }

/-- Modelled from the spec: `drain(n)` removes the first `n` bytes
(everything when `n` exceeds `total_len`); fails when the front is
frozen. -/
def evbuffer_drain (b : Evbuffer) (n : Nat) : Option Evbuffer :=
  if b.frontFrozen then none
  else some { b with chain := chainDrain b.chain n }

/-- Modelled from the spec: `remove(dst, n)` copies up to `n` bytes from
the head into `dst` and drains them, returning the bytes copied; fails
when the front is frozen. -/
def evbuffer_remove (b : Evbuffer) (n : Nat) : Option (List Nat × Evbuffer) :=
  if b.frontFrozen then none
  else some (chainCopy b.chain n, { b with chain := chainDrain b.chain n })

/-- Modelled from the spec: `add_buffer(dst, src)` unlinks every segment
of `src` and appends them to `dst`'s chain with zero byte copies,
emptying `src`; both the back of `dst` and the front of `src` must be
unfrozen. -/
def evbuffer_add_buffer (dst src : Evbuffer) : Option (Evbuffer × Evbuffer) :=
  if dst.backFrozen || src.frontFrozen then none
  else some ({ dst with chain := dst.chain ++ src.chain },
             { src with chain := [] })

/-- Modelled from the spec: `remove_buffer(src, dst, n)` transfers up to
`n` bytes from `src` to `dst`, relinking whole segments and splitting the
boundary segment by copy; returns the bytes transferred. -/
def evbuffer_remove_buffer (src dst : Evbuffer) (n : Nat) :
    Option (Evbuffer × Evbuffer × Nat) :=
  if src.frontFrozen || dst.backFrozen then none
  else some ({ src with chain := chainDrain src.chain n },
             { dst with chain := dst.chain ++ chainTakeSegs src.chain n },
             min n (evbuffer_get_length src))

/-- Modelled from the spec: `reserve_space(n)` records an outstanding
reservation in the tail; the reserved bytes are not counted in
`total_len` and are not visible to readers; fails when the back is
frozen. -/
def evbuffer_reserve_space (b : Evbuffer) (n : Nat) : Option Evbuffer :=
  if b.backFrozen then none
  else some { b with reservedLen := n }

/-- Modelled from the spec: `commit_space(k)` marks the first `k`
reserved bytes (whose contents the caller wrote through the reserved
pointer, here passed as `written`) live and clears the reservation;
committing more than the outstanding reservation is a `BadArgument`
failure. -/
def evbuffer_commit_space (b : Evbuffer) (written : List Nat) : Option Evbuffer :=
  if b.backFrozen then none
  else if written.length ≤ b.reservedLen then
    some { b with chain := b.chain ++ [written], reservedLen := 0 }
  else none

/-- Modelled from the spec: `write_atmost(fd, n)` drains exactly the
count the kernel accepted (`accepted`, capped by the buffer's length) and
returns it; fails when the front is frozen. -/
def evbuffer_write_atmost (b : Evbuffer) (accepted : Nat) :
    Option (Nat × Evbuffer) :=
  if b.frontFrozen then none
  else some (min accepted (evbuffer_get_length b),
             { b with chain := chainDrain b.chain accepted })

/-- Modelled from the spec: freezing marks one end; mutations at that end
then fail. -/
def evbuffer_freeze (b : Evbuffer) (atFront : Bool) : Evbuffer :=
  if atFront then { b with frontFrozen := true }
  else { b with backFrozen := true }

/-- Modelled from the spec: unfreezing re-enables mutations at one end. -/
def evbuffer_unfreeze (b : Evbuffer) (atFront : Bool) : Evbuffer :=
  if atFront then { b with frontFrozen := false }
  else { b with backFrozen := false }

/-- Modelled from the spec (§4.3 readln, CRLF dialect): scan for the
first LF; the line is everything before it minus an optional immediately
preceding CR; returns the line and the remainder after the terminator, or
nothing when no complete line is present. -/
def splitLineCRLF : List Nat → Option (List Nat × List Nat)
  | [] => none
  | [c] => if c = 10 then some ([], []) else none
  | c :: d :: rest =>
    if c = 10 then some ([], d :: rest)
    else if c = 13 ∧ d = 10 then some ([], rest)
    else (splitLineCRLF (d :: rest)).map (fun p => (c :: p.1, p.2))

/-- Modelled from the spec: `readln` with the CRLF style returns the
first line excluding its terminator (an optional CR then a single LF,
both consumed by draining them together with the line); when no complete
line is present it returns nothing and the buffer is untouched.  The
length reported through `n_read_out` is the length of the returned
line. -/
def readlnNext (b : Evbuffer) (rest : List Nat) : Evbuffer :=
  { b with chain :=
      chainDrain b.chain ((evbuffer_contents b).length - rest.length) }

def evbuffer_readln_crlf (b : Evbuffer) : Option (List Nat × Evbuffer) :=
  if b.frontFrozen then none
  else
    match splitLineCRLF (evbuffer_contents b) with
    | none => none
    | some (line, rest) => some (line, readlnNext b rest)

/-- Modelled from the spec (§4.1 pullup): when the head segment already
holds the first `n` bytes, nothing happens; otherwise the head grows to
hold exactly `n` bytes copied from its successors, whose consumed heads
are drained. -/
def chainPullup (c : List (List Nat)) (n : Nat) : List (List Nat) :=
  match c with
  | [] => []
  | seg :: rest =>
    if n ≤ seg.length then seg :: rest
    else (seg ++ chainCopy rest (n - seg.length))
        :: chainDrain rest (n - seg.length)

/-- Modelled from the spec: `pullup(buf, size)` makes the first `size`
bytes contiguous; `size == -1` means the entire buffer. -/
def evbuffer_pullup (b : Evbuffer) (size : Int) : Evbuffer :=
  let n := if size < 0 then evbuffer_get_length b else size.toNat
  { b with chain := chainPullup b.chain n }

/-- The head segment of a chain (empty for an empty chain); after a
pullup of `n` bytes this is where the contiguous pointer points. -/
def headSeg (c : List (List Nat)) : List Nat :=
  c.headD []

/-- Modelled from the spec (§4.3 search): Boolean test that `needle` is
a prefix of `s`, used to verify a candidate match position. -/
def listMatch : List Nat → List Nat → Bool
  | [], _ => true
  | _ :: _, [] => false
  | a :: as, b :: bs => a == b && listMatch as bs

/-- Modelled from the spec (§4.3 search): single forward pass that tries
each position in turn, returning the first position whose window matches
the needle. -/
def firstMatchAux (needle : List Nat) : List Nat → Nat → Option Nat
  | [], p => if listMatch needle [] then some p else none
  | s@(_ :: rest), p =>
    if listMatch needle s then some p
    else firstMatchAux needle rest (p + 1)

/-- Modelled from the spec: `search(what, len, start)` scans forward from
`start` (position 0 when null) and returns the position of the first
match, or `-1` when there is none. -/
def evbuffer_search (b : Evbuffer) (what : List Nat) (start : Option Nat) : Int :=
  let p0 := (start.getD 0)
  match firstMatchAux what ((evbuffer_contents b).drop p0) p0 with
  | some p => (p : Int)
  | none => -1

/-- The needle occurs in `s` as a contiguous byte sequence beginning at
offset `p`. -/
def occursAt (s needle : List Nat) (p : Nat) : Prop :=
  (s.drop p).take needle.length = needle

instance occursAt_decidable (s needle : List Nat) (p : Nat) :
    Decidable (occursAt s needle p) := by
  unfold occursAt; infer_instance

/-- Modelled from the spec (§4.2): one public mutating operation on a
buffer.  Cross-buffer moves carry the other buffer's contribution
(`addBuffer` the incoming segments, `removeBuffer` the requested count),
and `write` carries the byte count the kernel accepted. -/
inductive EvOp where
  | add (data : List Nat)
  | prepend (data : List Nat)
  | drain (n : Nat)
  | remove (n : Nat)
  | removeBuffer (n : Nat)
  | addBuffer (src : List (List Nat))
  | write (accepted : Nat)
  | reserve (n : Nat)
  | commit (written : List Nat)
  | freezeFront
  | freezeBack
  | unfreezeFront
  | unfreezeBack
deriving DecidableEq, Repr

/-- Modelled from the spec: run one operation; a rejected operation
leaves the buffer unchanged (no side effects). -/
def execOp (b : Evbuffer) : EvOp → Evbuffer
  | .add data =>
    match evbuffer_add b data with
    | some b2 => b2
    | none => b
  | .prepend data =>
    match evbuffer_prepend b data with
    | some b2 => b2
    | none => b
  | .drain n =>
    match evbuffer_drain b n with
    | some b2 => b2
    | none => b
  | .remove n =>
    match evbuffer_remove b n with
    | some r => r.2
    | none => b
  | .removeBuffer n =>
    match evbuffer_remove_buffer b evbuffer_new n with
    | some r => r.1
    | none => b
  | .addBuffer src =>
    match evbuffer_add_buffer b ⟨src, false, false, 0⟩ with
    | some r => r.1
    | none => b
  | .write accepted =>
    match evbuffer_write_atmost b accepted with
    | some r => r.2
    | none => b
  | .reserve n =>
    match evbuffer_reserve_space b n with
    | some b2 => b2
    | none => b
  | .commit written =>
    match evbuffer_commit_space b written with
    | some b2 => b2
    | none => b
  | .freezeFront => evbuffer_freeze b true
  | .freezeBack => evbuffer_freeze b false
  | .unfreezeFront => evbuffer_unfreeze b true
  | .unfreezeBack => evbuffer_unfreeze b false

/-- Number of bytes an operation actually appends to the buffer when run
in state `b` (0 for rejected or non-appending operations). -/
def opAdded (b : Evbuffer) : EvOp → Nat
  | .add data => if b.backFrozen then 0 else data.length
  | .prepend data => if b.frontFrozen then 0 else data.length
  | .addBuffer src => if b.backFrozen then 0 else (src.map List.length).sum
  | .commit written =>
    if b.backFrozen then 0
    else if written.length ≤ b.reservedLen then written.length else 0
  | _ => 0

/-- Number of bytes an operation actually drains from the buffer when
run in state `b` (0 for rejected or non-draining operations). -/
def opDeleted (b : Evbuffer) : EvOp → Nat
  | .drain n => if b.frontFrozen then 0 else min n (evbuffer_get_length b)
  | .remove n => if b.frontFrozen then 0 else min n (evbuffer_get_length b)
  | .removeBuffer n => if b.frontFrozen then 0 else min n (evbuffer_get_length b)
  | .write accepted =>
    if b.frontFrozen then 0 else min accepted (evbuffer_get_length b)
  | _ => 0

/-- Run a whole sequence of operations. -/
def execOps (b : Evbuffer) : List EvOp → Evbuffer
  | [] => b
  | op :: ops => execOps (execOp b op) ops

/-- Total bytes appended along a trace. -/
def totalAdded (b : Evbuffer) : List EvOp → Nat
  | [] => 0
  | op :: ops => opAdded b op + totalAdded (execOp b op) ops

/-- Total bytes drained along a trace. -/
def totalDeleted (b : Evbuffer) : List EvOp → Nat
  | [] => 0
  | op :: ops => opDeleted b op + totalDeleted (execOp b op) ops

/-- Modelled from the spec (§3, §4.5): a callback entry with its enabled
and suspended flags and the accumulator used while deferred: the length
at the start of the pending window plus the accumulated
`n_added`/`n_deleted` sums (`none` when nothing is pending). -/
structure EvCbEntry where
  enabled : Bool
  suspended : Bool
  pending : Option (Nat × Nat × Nat)
deriving DecidableEq, Repr

/-- Modelled from the spec (§4.5 deferred mode): merge one mutation's
deltas into an accumulator, keeping the `orig_size` of the first pending
mutation. -/
def cbCombine : Option (Nat × Nat × Nat) → Nat → Nat → Nat →
    Option (Nat × Nat × Nat)
  | none, o, a, d => some (o, a, d)
  | some (o0, a0, d0), _, a, d => some (o0, a0 + a, d0 + d)

/-- Modelled from the spec (§4.5): a successful mutation that changed the
buffer accumulates its deltas into an enabled entry; a mutation that
changed nothing schedules nothing. -/
def cbNote (e : EvCbEntry) (o a d : Nat) : EvCbEntry :=
  if e.enabled = true ∧ 0 < a + d then
    { e with pending := cbCombine e.pending o a d }
  else e

/-- Accumulation seen by a single callback entry across a trace. -/
def entryRun : Evbuffer → List EvOp → EvCbEntry → EvCbEntry
  | _, [], e => e
  | b, op :: ops, e =>
    entryRun (execOp b op) ops
      (cbNote e (evbuffer_get_length b) (opAdded b op) (opDeleted b op))

/-- Modelled from the spec (§4.5 deferred mode): run a trace of
operations, accumulating every mutation's deltas into every callback
entry instead of invoking anything. -/
def runDefer : Evbuffer → List EvCbEntry → List EvOp → Evbuffer × List EvCbEntry
  | b, es, [] => (b, es)
  | b, es, op :: ops =>
    runDefer (execOp b op)
      (es.map fun e =>
        cbNote e (evbuffer_get_length b) (opAdded b op) (opDeleted b op))
      ops

/-- Modelled from the spec (§4.5): one event-loop dispatch: every enabled
non-suspended entry is invoked with its accumulated info (`none` in the
invocation list means the entry was not invoked) and its accumulator is
reset. -/
def cbDispatch (es : List EvCbEntry) :
    List (Option (Nat × Nat × Nat)) × List EvCbEntry :=
  (es.map fun e =>
     if e.enabled = true ∧ e.suspended = false then e.pending else none,
   es.map fun e =>
     if e.enabled = true ∧ e.suspended = false then { e with pending := none }
     else e)

/-- Every operation of the trace is a successful mutation (changes at
least one byte) at the point where it runs. -/
def allEffective : Evbuffer → List EvOp → Bool
  | _, [] => true
  | b, op :: ops =>
    decide (0 < opAdded b op + opDeleted b op) && allEffective (execOp b op) ops

/-- Modelled from the spec (§3 callback entry, header doc of
`evbuffer_add_cb`): a registered callback is a function identifier plus
its user argument. -/
structure EvCbReg where
  fn : Nat
  arg : Nat
deriving DecidableEq, Repr

/-- Modelled from the spec (header doc of `evbuffer_add_cb`): a non-null
callback function is appended as a new entry, returning its handle;
a null (`none`) callback function registers nothing and instead removes
all callbacks currently on the buffer, returning no handle. -/
def evbuffer_add_cb (cbs : List EvCbReg) (cb : Option Nat) (arg : Nat) :
    List EvCbReg × Option Nat :=
  match cb with
  | none => ([], none)
  | some f => (cbs ++ [⟨f, arg⟩], some cbs.length)

/-- An `add(data)` immediately followed by a `remove(m)` on the same
buffer (the composition the spec's roundtrip property is about). -/
def addThenRemove (b : Evbuffer) (data : List Nat) (m : Nat) :
    Option (List Nat × Evbuffer) :=
  (evbuffer_add b data).bind fun b2 => evbuffer_remove b2 m

theorem evbuffer_get_length_eq_contents (b : Evbuffer) :
    evbuffer_get_length b = (evbuffer_contents b).length := by
  simp [evbuffer_get_length, evbuffer_contents]

theorem chainDrain_join (c : List (List Nat)) (n : Nat) :
    (chainDrain c n).flatten = c.flatten.drop n := by
  induction c generalizing n with
  | nil => simp [chainDrain]
  | cons seg rest ih =>
    by_cases h0 : n = 0
    · simp [chainDrain, h0]
    · by_cases hle : seg.length ≤ n
      · rw [chainDrain, if_neg h0, if_pos hle, ih]
        rw [List.flatten_cons, List.drop_append_eq_append_drop,
          List.drop_of_length_le hle, List.nil_append]
      · rw [chainDrain, if_neg h0, if_neg hle]
        rw [List.flatten_cons, List.flatten_cons, List.drop_append_eq_append_drop,
          Nat.sub_eq_zero_of_le (Nat.le_of_not_le hle), List.drop_zero]

theorem chainCopy_join (c : List (List Nat)) (n : Nat) :
    chainCopy c n = c.flatten.take n := by
  induction c generalizing n with
  | nil => simp [chainCopy]
  | cons seg rest ih =>
    by_cases hle : n ≤ seg.length
    · rw [chainCopy, if_pos hle]
      rw [List.flatten_cons, List.take_append_eq_append_take,
        Nat.sub_eq_zero_of_le hle, List.take_zero, List.append_nil]
    · rw [chainCopy, if_neg hle, ih]
      rw [List.flatten_cons, List.take_append_eq_append_take,
        List.take_of_length_le (Nat.le_of_not_le hle)]

theorem chainTakeSegs_join (c : List (List Nat)) (n : Nat) :
    (chainTakeSegs c n).flatten = c.flatten.take n := by
  induction c generalizing n with
  | nil => simp [chainTakeSegs]
  | cons seg rest ih =>
    by_cases h0 : n = 0
    · simp [chainTakeSegs, h0]
    · by_cases hle : seg.length ≤ n
      · rw [chainTakeSegs, if_neg h0, if_pos hle]
        rw [List.flatten_cons, List.flatten_cons, ih, List.take_append_eq_append_take,
          List.take_of_length_le hle]
      · rw [chainTakeSegs, if_neg h0, if_neg hle]
        simp [List.take_append_eq_append_take,
          Nat.sub_eq_zero_of_le (Nat.le_of_not_le hle)]

theorem splitLineCRLF_none (s : List Nat) :
    splitLineCRLF s = none ↔ 10 ∉ s := by
  induction s using splitLineCRLF.induct with
  | case1 => simp [splitLineCRLF]
  | case2 => simp [splitLineCRLF]
  | case3 =>
    rename_i c hc
    rw [splitLineCRLF, if_neg hc]
    simpa using fun h : 10 = c => hc h.symm
  | case4 =>
    rename_i d rest
    simp [splitLineCRLF]
  | case5 =>
    rename_i c d rest hc hcd
    obtain ⟨h13, h10⟩ := hcd
    subst h13; subst h10
    rw [splitLineCRLF, if_neg hc, if_pos ⟨rfl, rfl⟩]
    simp
  | case6 =>
    rename_i c d rest hc hcd ih
    rw [splitLineCRLF, if_neg hc, if_neg hcd]
    have hmap : Option.map (fun p : List Nat × List Nat => (c :: p.1, p.2))
        (splitLineCRLF (d :: rest)) = none ↔ splitLineCRLF (d :: rest) = none := by
      cases splitLineCRLF (d :: rest) <;> simp
    rw [hmap, ih]
    have hc2 : ¬(10 = c) := fun h => hc h.symm
    simp only [List.mem_cons, not_or]
    tauto

theorem splitLineCRLF_some (s line rest : List Nat)
    (h : splitLineCRLF s = some (line, rest)) :
    10 ∉ line ∧ (s = line ++ 10 :: rest ∨ s = line ++ 13 :: 10 :: rest) := by
  induction s using splitLineCRLF.induct generalizing line rest with
  | case1 => simp [splitLineCRLF] at h
  | case2 =>
    rw [splitLineCRLF, if_pos rfl] at h
    obtain ⟨h1, h2⟩ := Prod.mk.injEq .. ▸ Option.some.inj h
    subst h1; subst h2; simp
  | case3 =>
    rename_i c hc
    rw [splitLineCRLF, if_neg hc] at h
    exact absurd h (by simp)
  | case4 =>
    rename_i d rest2
    rw [splitLineCRLF, if_pos rfl] at h
    obtain ⟨h1, h2⟩ := Prod.mk.injEq .. ▸ Option.some.inj h
    subst h1; subst h2; simp
  | case5 =>
    rename_i c d rest2 hc hcd
    obtain ⟨h13, h10⟩ := hcd
    subst h13; subst h10
    rw [splitLineCRLF, if_neg hc, if_pos ⟨rfl, rfl⟩] at h
    obtain ⟨h1, h2⟩ := Prod.mk.injEq .. ▸ Option.some.inj h
    subst h1; subst h2; simp
  | case6 =>
    rename_i c d rest2 hc hcd ih
    rw [splitLineCRLF, if_neg hc, if_neg hcd] at h
    cases hsp : splitLineCRLF (d :: rest2) with
    | none => rw [hsp] at h; simp at h
    | some p =>
      obtain ⟨l2, r2⟩ := p
      rw [hsp] at h
      simp only [Option.map_some', Option.some.injEq, Prod.mk.injEq] at h
      obtain ⟨h1, h2⟩ := h
      obtain ⟨hmem, hdec⟩ := ih l2 r2 hsp
      subst h2
      constructor
      · intro hm
        rw [← h1] at hm
        rcases List.mem_cons.mp hm with hm | hm
        · exact hc hm.symm
        · exact hmem hm
      · rw [← h1]
        rcases hdec with hd2 | hd2 <;> simp [hd2]

theorem chainPullup_flatten (c : List (List Nat)) (n : Nat) :
    (chainPullup c n).flatten = c.flatten := by
  match c with
  | [] => rfl
  | seg :: rest =>
    rw [chainPullup]
    by_cases hle : n ≤ seg.length
    · rw [if_pos hle]
    · rw [if_neg hle]
      rw [List.flatten_cons, List.flatten_cons, chainCopy_join, chainDrain_join,
        List.append_assoc, List.take_append_drop]

theorem chainPullup_headSeg (c : List (List Nat)) (n : Nat)
    (hn : n ≤ c.flatten.length) :
    n ≤ (headSeg (chainPullup c n)).length := by
  match c with
  | [] =>
    simp at hn
    simp [chainPullup, headSeg, hn]
  | seg :: rest =>
    rw [chainPullup]
    by_cases hle : n ≤ seg.length
    · rw [if_pos hle]; simpa [headSeg]
    · rw [if_neg hle]
      simp only [headSeg, List.headD_cons, List.length_append,
        chainCopy_join, List.length_take]
      simp only [List.flatten_cons, List.length_append] at hn
      omega

theorem chainPullup_idem (c : List (List Nat)) (n : Nat)
    (hn : n ≤ c.flatten.length) :
    chainPullup (chainPullup c n) n = chainPullup c n := by
  match hc : chainPullup c n with
  | [] => rfl
  | seg2 :: rest2 =>
    have hhead := chainPullup_headSeg c n hn
    rw [hc] at hhead
    simp only [headSeg, List.headD_cons] at hhead
    rw [chainPullup, if_pos hhead]

theorem listMatch_iff (needle s : List Nat) :
    listMatch needle s = true ↔ s.take needle.length = needle := by
  induction needle generalizing s with
  | nil => simp [listMatch]
  | cons a as ih =>
    cases s with
    | nil => simp [listMatch]
    | cons b bs =>
      rw [listMatch, List.length_cons, List.take_succ_cons]
      rw [Bool.and_eq_true, beq_iff_eq, ih]
      constructor
      · rintro ⟨h1, h2⟩; rw [h1, h2]
      · intro h
        obtain ⟨h1, h2⟩ := List.cons.inj h
        exact ⟨h1.symm, h2⟩

theorem firstMatchAux_none (needle s : List Nat) (p : Nat)
    (h : firstMatchAux needle s p = none) :
    ∀ r, listMatch needle (s.drop r) = false := by
  induction s generalizing p with
  | nil =>
    intro r
    rw [firstMatchAux] at h
    by_cases hm : listMatch needle [] = true
    · rw [if_pos hm] at h; exact absurd h (by simp)
    · simpa [List.drop_nil] using Bool.not_eq_true _ ▸ hm
  | cons x rest ih =>
    intro r
    rw [firstMatchAux] at h
    by_cases hm : listMatch needle (x :: rest) = true
    · rw [if_pos hm] at h; exact absurd h (by simp)
    · rw [if_neg hm] at h
      match r with
      | 0 => simpa using Bool.not_eq_true _ ▸ hm
      | r + 1 =>
        rw [List.drop_succ_cons]
        exact ih (p + 1) h r

theorem firstMatchAux_some (needle s : List Nat) (p q : Nat)
    (h : firstMatchAux needle s p = some q) :
    p ≤ q ∧ listMatch needle (s.drop (q - p)) = true ∧
      ∀ r, r < q - p → listMatch needle (s.drop r) = false := by
  induction s generalizing p with
  | nil =>
    rw [firstMatchAux] at h
    by_cases hm : listMatch needle [] = true
    · rw [if_pos hm] at h
      obtain rfl := Option.some.inj h
      refine ⟨Nat.le_refl _, by simpa using hm, ?_⟩
      intro r hr; omega
    · rw [if_neg hm] at h; exact absurd h (by simp)
  | cons x rest ih =>
    rw [firstMatchAux] at h
    by_cases hm : listMatch needle (x :: rest) = true
    · rw [if_pos hm] at h
      obtain rfl := Option.some.inj h
      refine ⟨Nat.le_refl _, by simpa using hm, ?_⟩
      intro r hr; omega
    · rw [if_neg hm] at h
      obtain ⟨hpq, hmatch, hmin⟩ := ih (p + 1) h
      refine ⟨by omega, ?_, ?_⟩
      · have : q - p = (q - (p + 1)) + 1 := by omega
        rw [this, List.drop_succ_cons]
        exact hmatch
      · intro r hr
        match r with
        | 0 => exact Bool.not_eq_true _ ▸ hm
        | r + 1 =>
          rw [List.drop_succ_cons]
          exact hmin r (by omega)

theorem evbuffer_get_length_mk (c : List (List Nat)) (f bk : Bool) (r : Nat) :
    evbuffer_get_length ⟨c, f, bk, r⟩ = c.flatten.length := by
  simp [evbuffer_get_length]

theorem chainDrain_sum (c : List (List Nat)) (n : Nat) :
    ((chainDrain c n).map List.length).sum + min n ((c.map List.length).sum)
      = (c.map List.length).sum := by
  have h1 : (chainDrain c n).flatten.length = c.flatten.length - n := by
    rw [chainDrain_join, List.length_drop]
  have h2 := List.length_flatten (chainDrain c n)
  have h3 := List.length_flatten c
  omega

theorem execOp_length (b : Evbuffer) (op : EvOp) :
    evbuffer_get_length (execOp b op) + opDeleted b op
      = evbuffer_get_length b + opAdded b op := by
  obtain ⟨c, f, bk, r⟩ := b
  cases op with
  | add data =>
    cases bk <;>
      simp [execOp, evbuffer_add, opAdded, opDeleted, evbuffer_get_length]
  | prepend data =>
    cases f <;>
      simp [execOp, evbuffer_prepend, opAdded, opDeleted, evbuffer_get_length,
        Nat.add_comm]
  | drain n =>
    cases f with
    | false =>
      have := chainDrain_sum c n
      simp [execOp, evbuffer_drain, opAdded, opDeleted, evbuffer_get_length]
      omega
    | true =>
      simp [execOp, evbuffer_drain, opAdded, opDeleted, evbuffer_get_length]
  | remove n =>
    cases f with
    | false =>
      have := chainDrain_sum c n
      simp [execOp, evbuffer_remove, opAdded, opDeleted, evbuffer_get_length]
      omega
    | true =>
      simp [execOp, evbuffer_remove, opAdded, opDeleted, evbuffer_get_length]
  | removeBuffer n =>
    cases f with
    | false =>
      have := chainDrain_sum c n
      simp [execOp, evbuffer_remove_buffer, evbuffer_new, opAdded, opDeleted,
        evbuffer_get_length]
      omega
    | true =>
      simp [execOp, evbuffer_remove_buffer, evbuffer_new, opAdded, opDeleted,
        evbuffer_get_length]
  | addBuffer src =>
    cases bk <;>
      simp [execOp, evbuffer_add_buffer, opAdded, opDeleted,
        evbuffer_get_length]
  | write accepted =>
    cases f with
    | false =>
      have := chainDrain_sum c accepted
      simp [execOp, evbuffer_write_atmost, opAdded, opDeleted,
        evbuffer_get_length]
      omega
    | true =>
      simp [execOp, evbuffer_write_atmost, opAdded, opDeleted,
        evbuffer_get_length]
  | reserve n =>
    cases bk <;>
      simp [execOp, evbuffer_reserve_space, opAdded, opDeleted,
        evbuffer_get_length]
  | commit written =>
    cases bk with
    | false =>
      by_cases hres : written.length ≤ r <;>
        simp [execOp, evbuffer_commit_space, opAdded, opDeleted, hres,
          evbuffer_get_length]
    | true =>
      simp [execOp, evbuffer_commit_space, opAdded, opDeleted,
        evbuffer_get_length]
  | freezeFront =>
    simp [execOp, evbuffer_freeze, opAdded, opDeleted, evbuffer_get_length]
  | freezeBack =>
    simp [execOp, evbuffer_freeze, opAdded, opDeleted, evbuffer_get_length]
  | unfreezeFront =>
    simp [execOp, evbuffer_unfreeze, opAdded, opDeleted, evbuffer_get_length]
  | unfreezeBack =>
    simp [execOp, evbuffer_unfreeze, opAdded, opDeleted, evbuffer_get_length]

theorem execOps_length (b : Evbuffer) (ops : List EvOp) :
    evbuffer_get_length (execOps b ops) + totalDeleted b ops
      = evbuffer_get_length b + totalAdded b ops := by
  induction ops generalizing b with
  | nil => simp [execOps, totalAdded, totalDeleted]
  | cons op ops ih =>
    rw [execOps, totalAdded, totalDeleted]
    have h1 := ih (execOp b op)
    have h2 := execOp_length b op
    omega

theorem runDefer_fst (b : Evbuffer) (es : List EvCbEntry) (ops : List EvOp) :
    (runDefer b es ops).1 = execOps b ops := by
  induction ops generalizing b es with
  | nil => rfl
  | cons op ops ih => rw [runDefer, execOps, ih]

theorem runDefer_snd (b : Evbuffer) (es : List EvCbEntry) (ops : List EvOp) :
    (runDefer b es ops).2 = es.map (entryRun b ops) := by
  induction ops generalizing b es with
  | nil =>
    rw [runDefer]
    have : entryRun b [] = fun e => e := by
      funext e; rfl
    rw [this, List.map_id']
  | cons op ops ih =>
    rw [runDefer, ih, List.map_map]
    rfl

theorem cbNote_enabled (e : EvCbEntry) (o a d : Nat) :
    (cbNote e o a d).enabled = e.enabled := by
  rw [cbNote]; split <;> rfl

theorem cbNote_suspended (e : EvCbEntry) (o a d : Nat) :
    (cbNote e o a d).suspended = e.suspended := by
  rw [cbNote]; split <;> rfl

theorem entryRun_enabled (b : Evbuffer) (ops : List EvOp) (e : EvCbEntry) :
    (entryRun b ops e).enabled = e.enabled := by
  induction ops generalizing b e with
  | nil => rfl
  | cons op ops ih => rw [entryRun, ih, cbNote_enabled]

theorem entryRun_suspended (b : Evbuffer) (ops : List EvOp) (e : EvCbEntry) :
    (entryRun b ops e).suspended = e.suspended := by
  induction ops generalizing b e with
  | nil => rfl
  | cons op ops ih => rw [entryRun, ih, cbNote_suspended]

theorem entryRun_pending_some (ops : List EvOp) (b : Evbuffer) (e : EvCbEntry)
    (o0 a0 d0 : Nat) (hp : e.pending = some (o0, a0, d0))
    (hen : e.enabled = true) (heff : allEffective b ops = true) :
    (entryRun b ops e).pending
      = some (o0, a0 + totalAdded b ops, d0 + totalDeleted b ops) := by
  induction ops generalizing b e a0 d0 with
  | nil => simp [entryRun, totalAdded, totalDeleted, hp]
  | cons op ops ih =>
    rw [allEffective, Bool.and_eq_true, decide_eq_true_eq] at heff
    obtain ⟨hpos, heff2⟩ := heff
    rw [entryRun, totalAdded, totalDeleted]
    have hnote : (cbNote e (evbuffer_get_length b) (opAdded b op)
        (opDeleted b op)).pending
        = some (o0, a0 + opAdded b op, d0 + opDeleted b op) := by
      rw [cbNote, if_pos ⟨hen, hpos⟩, hp]
      rfl
    have hen2 : (cbNote e (evbuffer_get_length b) (opAdded b op)
        (opDeleted b op)).enabled = true := by
      rw [cbNote_enabled, hen]
    rw [ih (execOp b op) _ _ _ hnote hen2 heff2]
    simp [Nat.add_assoc]

theorem entryRun_pending_none (ops : List EvOp) (b : Evbuffer) (e : EvCbEntry)
    (hp : e.pending = none) (hen : e.enabled = true) (hne : ops ≠ [])
    (heff : allEffective b ops = true) :
    (entryRun b ops e).pending
      = some (evbuffer_get_length b, totalAdded b ops, totalDeleted b ops) := by
  match ops with
  | [] => exact absurd rfl hne
  | op :: ops =>
    rw [allEffective, Bool.and_eq_true, decide_eq_true_eq] at heff
    obtain ⟨hpos, heff2⟩ := heff
    rw [entryRun, totalAdded, totalDeleted]
    have hnote : (cbNote e (evbuffer_get_length b) (opAdded b op)
        (opDeleted b op)).pending
        = some (evbuffer_get_length b, opAdded b op, opDeleted b op) := by
      rw [cbNote, if_pos ⟨hen, hpos⟩, hp]
      rfl
    have hen2 : (cbNote e (evbuffer_get_length b) (opAdded b op)
        (opDeleted b op)).enabled = true := by
      rw [cbNote_enabled, hen]
    rw [entryRun_pending_some ops (execOp b op) _ _ _ _ hnote hen2 heff2]

theorem headSeg_take (c : List (List Nat)) (n : Nat)
    (h : n ≤ (headSeg c).length) :
    (headSeg c).take n = c.flatten.take n := by
  cases c with
  | nil => simp [headSeg]
  | cons seg rest =>
    simp only [headSeg, List.headD_cons] at h ⊢
    rw [List.flatten_cons, List.take_append_of_le_length h]

theorem cbDispatch_twice (es : List EvCbEntry) :
    (cbDispatch (cbDispatch es).2).1 = es.map fun _ => none := by
  rw [cbDispatch, cbDispatch, List.map_map]
  refine List.map_congr_left ?_
  intro e _
  by_cases hc : e.enabled = true ∧ e.suspended = false
  · simp only [Function.comp_apply, if_pos hc]
  · simp only [Function.comp_apply, if_neg hc]

/-- C1: over any finite operation sequence, the length query returns the
total number of bytes actually appended minus the total number actually
drained (drains include `remove`, `remove_buffer` and the write
operations); stated additively over an arbitrary initial buffer and,
specialised to a fresh buffer, exactly as added-minus-drained. -/
theorem evbuffer_length_accounting (b : Evbuffer) (ops : List EvOp) :
    (evbuffer_get_length (execOps b ops) + totalDeleted b ops
        = evbuffer_get_length b + totalAdded b ops) ∧
    (evbuffer_get_length (execOps evbuffer_new ops)
        + totalDeleted evbuffer_new ops
        = totalAdded evbuffer_new ops) := by
  refine ⟨execOps_length b ops, ?_⟩
  have h := execOps_length evbuffer_new ops
  simpa [evbuffer_new, evbuffer_get_length] using h

/-- C2 counterexample: the claim quantifies over every buffer, but on a
non-empty buffer `remove` copies the buffer's earlier head bytes, not the
just-added data: with one byte `0` already stored, `add [1]` then
`remove 2` yields `[0, 1]`, whose first byte differs from the added data,
and the final length (0) differs from the pre-add length (1). -/
theorem evbuffer_add_remove_claim_false :
    ¬ (∀ (b : Evbuffer) (data : List Nat) (m : Nat),
        b.frontFrozen = false → b.backFrozen = false → data.length ≤ m →
        ∀ out b2, addThenRemove b data m = some (out, b2) →
          out.take data.length = data ∧ out.length = data.length ∧
          evbuffer_get_length b2 = evbuffer_get_length b) := by
  intro h
  have h2 := h ⟨[[0]], false, false, 0⟩ [1] 2 rfl rfl (by decide)
      [0, 1] ⟨[], false, false, 0⟩ (by decide)
  exact absurd h2.1 (by decide)

/-- C2 (amended): on an initially empty unfrozen buffer, `add(data, n)`
followed by `remove(dst, m)` with `m ≥ n` copies exactly the added bytes,
returns `n`, and leaves the length at 0, its value before the add. -/
theorem evbuffer_add_remove_roundtrip (data : List Nat) (m : Nat)
    (hm : data.length ≤ m) :
    ∃ b2, addThenRemove evbuffer_new data m = some (data, b2) ∧
      evbuffer_get_length b2 = 0 ∧
      evbuffer_get_length b2 = evbuffer_get_length evbuffer_new := by
  have hcopy : chainCopy [data] m = data := by
    rw [chainCopy]
    by_cases h : m ≤ data.length
    · rw [if_pos h, List.take_of_length_le hm]
    · rw [if_neg h, chainCopy, List.append_nil]
  have hlen : evbuffer_get_length ⟨chainDrain [data] m, false, false, 0⟩ = 0 := by
    rw [evbuffer_get_length_mk]
    rw [chainDrain_join]
    simp [List.length_drop]
    omega
  refine ⟨⟨chainDrain [data] m, false, false, 0⟩, ?_, hlen, hlen.trans rfl⟩
  simp [addThenRemove, evbuffer_add, evbuffer_remove, evbuffer_new, hcopy]

/-- C2 witness: scenario S1, `add("hello", 5)` then `remove(out, 10)`
returns the five bytes of "hello" and leaves the buffer empty. -/
theorem evbuffer_add_remove_roundtrip_witness :
    ([104, 101, 108, 108, 111] : List Nat).length ≤ 10 ∧
    ∃ b2, addThenRemove evbuffer_new [104, 101, 108, 108, 111] 10
        = some ([104, 101, 108, 108, 111], b2) ∧
      evbuffer_get_length b2 = 0 ∧
      evbuffer_get_length b2 = evbuffer_get_length evbuffer_new :=
  ⟨by decide,
   evbuffer_add_remove_roundtrip [104, 101, 108, 108, 111] 10 (by decide)⟩

/-- C3: a successful `add_buffer(dst, src)` (back of `dst` and front of
`src` unfrozen) empties `src`, gives `dst` the sum of the two lengths,
makes `dst`'s stream the concatenation of the two streams, and relinks
`src`'s segments unchanged onto `dst`'s chain (no byte is copied). -/
theorem evbuffer_add_buffer_spec (dst src : Evbuffer)
    (hb : dst.backFrozen = false) (hf : src.frontFrozen = false) :
    ∃ dst2 src2,
      evbuffer_add_buffer dst src = some (dst2, src2) ∧
      evbuffer_get_length src2 = 0 ∧
      evbuffer_get_length dst2
        = evbuffer_get_length dst + evbuffer_get_length src ∧
      evbuffer_contents dst2
        = evbuffer_contents dst ++ evbuffer_contents src ∧
      dst2.chain = dst.chain ++ src.chain := by
  have h : evbuffer_add_buffer dst src
      = some ({ dst with chain := dst.chain ++ src.chain },
              { src with chain := [] }) := by
    rw [evbuffer_add_buffer, hb, hf]
    rfl
  refine ⟨_, _, h, rfl, ?_, ?_, rfl⟩
  · simp [evbuffer_get_length]
  · simp [evbuffer_contents]

/-- C3 witness: moving a two-segment source onto a one-segment
destination. -/
theorem evbuffer_add_buffer_spec_witness :
    ∃ dst2 src2,
      evbuffer_add_buffer ⟨[[1, 2]], false, false, 0⟩
          ⟨[[3], [4]], false, false, 0⟩ = some (dst2, src2) ∧
      evbuffer_get_length src2 = 0 ∧
      evbuffer_get_length dst2
        = evbuffer_get_length ⟨[[1, 2]], false, false, 0⟩
          + evbuffer_get_length ⟨[[3], [4]], false, false, 0⟩ ∧
      evbuffer_contents dst2
        = evbuffer_contents ⟨[[1, 2]], false, false, 0⟩
          ++ evbuffer_contents ⟨[[3], [4]], false, false, 0⟩ ∧
      dst2.chain = ([[1, 2]] : List (List Nat)) ++ [[3], [4]] :=
  evbuffer_add_buffer_spec ⟨[[1, 2]], false, false, 0⟩
    ⟨[[3], [4]], false, false, 0⟩ rfl rfl

/-- C4: an outstanding `reserve_space(n)` changes neither the length nor
the readable bytes; a `commit_space(k)` with `k ≤ n` then succeeds and
grows the length by exactly `k`, while a commit exceeding the
reservation fails. -/
theorem evbuffer_reserve_commit_spec (b : Evbuffer) (n : Nat)
    (written : List Nat) (hb : b.backFrozen = false) :
    ∃ br, evbuffer_reserve_space b n = some br ∧
      evbuffer_get_length br = evbuffer_get_length b ∧
      evbuffer_contents br = evbuffer_contents b ∧
      (written.length ≤ n →
        ∃ bc, evbuffer_commit_space br written = some bc ∧
          evbuffer_get_length bc
            = evbuffer_get_length b + written.length) ∧
      (n < written.length → evbuffer_commit_space br written = none) := by
  refine ⟨{ b with reservedLen := n }, ?_, rfl, rfl, ?_, ?_⟩
  · rw [evbuffer_reserve_space, hb]
    rfl
  · intro hw
    refine ⟨{ b with chain := b.chain ++ [written], reservedLen := 0 }, ?_, ?_⟩
    · rw [evbuffer_commit_space]
      simp [hb, hw]
    · simp [evbuffer_get_length]
  · intro hw
    rw [evbuffer_commit_space]
    simp [hb]
    omega

/-- C4 witness: scenario S5, reserving 4096 bytes leaves the length at 0,
and committing 10 written bytes makes the length 10. -/
theorem evbuffer_reserve_commit_spec_witness :
    (false = false) ∧
    ∃ br, evbuffer_reserve_space evbuffer_new 4096 = some br ∧
      evbuffer_get_length br = evbuffer_get_length evbuffer_new ∧
      evbuffer_contents br = evbuffer_contents evbuffer_new ∧
      (([0, 1, 2, 3, 4, 5, 6, 7, 8, 9] : List Nat).length ≤ 4096 →
        ∃ bc, evbuffer_commit_space br [0, 1, 2, 3, 4, 5, 6, 7, 8, 9]
            = some bc ∧
          evbuffer_get_length bc
            = evbuffer_get_length evbuffer_new
              + ([0, 1, 2, 3, 4, 5, 6, 7, 8, 9] : List Nat).length) ∧
      (4096 < ([0, 1, 2, 3, 4, 5, 6, 7, 8, 9] : List Nat).length →
        evbuffer_commit_space br [0, 1, 2, 3, 4, 5, 6, 7, 8, 9] = none) :=
  ⟨rfl, evbuffer_reserve_commit_spec evbuffer_new 4096
    [0, 1, 2, 3, 4, 5, 6, 7, 8, 9] rfl⟩

/-- C5: while the front is frozen every draining operation (`drain`,
`remove`, `remove_buffer`, `readln`) and `prepend` fails, and while the
back is frozen every appending operation (`add`, `add_buffer`,
`commit_space`) and `reserve_space` fails; in each case the rejected
operation leaves the buffer exactly as it was (no side effects). -/
theorem evbuffer_freeze_gating (b src : Evbuffer) (data : List Nat) (n : Nat) :
    (b.frontFrozen = true →
      evbuffer_drain b n = none ∧
      evbuffer_remove b n = none ∧
      evbuffer_prepend b data = none ∧
      evbuffer_readln_crlf b = none ∧
      evbuffer_remove_buffer b src n = none ∧
      execOp b (EvOp.drain n) = b ∧
      execOp b (EvOp.remove n) = b ∧
      execOp b (EvOp.prepend data) = b ∧
      execOp b (EvOp.removeBuffer n) = b ∧
      execOp b (EvOp.write n) = b) ∧
    (b.backFrozen = true →
      evbuffer_add b data = none ∧
      evbuffer_reserve_space b n = none ∧
      evbuffer_commit_space b data = none ∧
      evbuffer_add_buffer b src = none ∧
      execOp b (EvOp.add data) = b ∧
      execOp b (EvOp.reserve n) = b ∧
      execOp b (EvOp.addBuffer src.chain) = b ∧
      execOp b (EvOp.commit data) = b) := by
  constructor
  · intro hf
    simp [evbuffer_drain, evbuffer_remove, evbuffer_prepend,
      evbuffer_readln_crlf, evbuffer_remove_buffer, execOp,
      evbuffer_write_atmost, hf]
  · intro hb
    simp [evbuffer_add, evbuffer_reserve_space, evbuffer_commit_space,
      evbuffer_add_buffer, execOp, hb]

/-- C5 witness: a buffer frozen at both ends rejects all of the gated
operations without changing. -/
theorem evbuffer_freeze_gating_witness :
    (evbuffer_drain ⟨[[5]], true, true, 0⟩ 1 = none ∧
      evbuffer_remove ⟨[[5]], true, true, 0⟩ 1 = none ∧
      evbuffer_prepend ⟨[[5]], true, true, 0⟩ [7] = none ∧
      evbuffer_readln_crlf ⟨[[5]], true, true, 0⟩ = none ∧
      evbuffer_remove_buffer ⟨[[5]], true, true, 0⟩ evbuffer_new 1 = none ∧
      execOp ⟨[[5]], true, true, 0⟩ (EvOp.drain 1) = ⟨[[5]], true, true, 0⟩ ∧
      execOp ⟨[[5]], true, true, 0⟩ (EvOp.remove 1) = ⟨[[5]], true, true, 0⟩ ∧
      execOp ⟨[[5]], true, true, 0⟩ (EvOp.prepend [7])
        = ⟨[[5]], true, true, 0⟩ ∧
      execOp ⟨[[5]], true, true, 0⟩ (EvOp.removeBuffer 1)
        = ⟨[[5]], true, true, 0⟩ ∧
      execOp ⟨[[5]], true, true, 0⟩ (EvOp.write 1) = ⟨[[5]], true, true, 0⟩) ∧
    (evbuffer_add ⟨[[5]], true, true, 0⟩ [7] = none ∧
      evbuffer_reserve_space ⟨[[5]], true, true, 0⟩ 1 = none ∧
      evbuffer_commit_space ⟨[[5]], true, true, 0⟩ [7] = none ∧
      evbuffer_add_buffer ⟨[[5]], true, true, 0⟩ evbuffer_new = none ∧
      execOp ⟨[[5]], true, true, 0⟩ (EvOp.add [7]) = ⟨[[5]], true, true, 0⟩ ∧
      execOp ⟨[[5]], true, true, 0⟩ (EvOp.reserve 1)
        = ⟨[[5]], true, true, 0⟩ ∧
      execOp ⟨[[5]], true, true, 0⟩ (EvOp.addBuffer evbuffer_new.chain)
        = ⟨[[5]], true, true, 0⟩ ∧
      execOp ⟨[[5]], true, true, 0⟩ (EvOp.commit [7])
        = ⟨[[5]], true, true, 0⟩) :=
  ⟨(evbuffer_freeze_gating ⟨[[5]], true, true, 0⟩ evbuffer_new [7] 1).1 rfl,
   (evbuffer_freeze_gating ⟨[[5]], true, true, 0⟩ evbuffer_new [7] 1).2 rfl⟩

/-- C6: `search(what, len, start)` with a non-empty needle returns the
lowest offset at or after `start.pos` at which the needle occurs
contiguously in the logical stream, or `-1` when there is no occurrence;
matches straddling a segment boundary are found, as in the two-segment
"abcd"/"efgh" buffer where "def" is found at position 3. -/
theorem evbuffer_search_spec (b : Evbuffer) (what : List Nat) (start : Nat)
    (hw : 1 ≤ what.length) (hs : start ≤ evbuffer_get_length b) :
    (evbuffer_search b what (some start) = -1 →
      ∀ p, start ≤ p → ¬ occursAt (evbuffer_contents b) what p) ∧
    (∀ p : Nat, evbuffer_search b what (some start) = (p : Int) →
      start ≤ p ∧ occursAt (evbuffer_contents b) what p ∧
      ∀ q, start ≤ q → q < p → ¬ occursAt (evbuffer_contents b) what q) ∧
    evbuffer_search ⟨[[97, 98, 99, 100], [101, 102, 103, 104]],
      false, false, 0⟩ [100, 101, 102] none = 3 := by
  have hdd : ∀ r : Nat, ((evbuffer_contents b).drop start).drop r
      = (evbuffer_contents b).drop (start + r) := by
    intro r
    rw [List.drop_drop]
  refine ⟨?_, ?_, by decide⟩
  · intro hneg p hp
    simp only [evbuffer_search, Option.getD_some] at hneg
    cases hfm : firstMatchAux what ((evbuffer_contents b).drop start) start with
    | some q => rw [hfm] at hneg; simp at hneg
    | none =>
      have hall := firstMatchAux_none what _ start hfm (p - start)
      rw [hdd, Nat.add_sub_cancel' hp] at hall
      intro hocc
      rw [occursAt, ← listMatch_iff] at hocc
      rw [hall] at hocc
      exact absurd hocc (by simp)
  · intro p hpos
    simp only [evbuffer_search, Option.getD_some] at hpos
    cases hfm : firstMatchAux what ((evbuffer_contents b).drop start) start with
    | none => rw [hfm] at hpos; simp at hpos
    | some q =>
      rw [hfm] at hpos
      simp only [Int.natCast_inj] at hpos
      obtain ⟨hle, hmatch, hmin⟩ := firstMatchAux_some what _ start q hfm
      subst hpos
      refine ⟨hle, ?_, ?_⟩
      · rw [hdd, Nat.add_sub_cancel' hle] at hmatch
        rw [occursAt, ← listMatch_iff]
        exact hmatch
      · intro r hr1 hr2 hocc
        have hm := hmin (r - start) (by omega)
        rw [hdd, Nat.add_sub_cancel' hr1] at hm
        rw [occursAt, ← listMatch_iff, hm] at hocc
        exact absurd hocc (by simp)

/-- C6 witness: searching the eight-byte two-segment buffer for "def"
from position 0. -/
theorem evbuffer_search_spec_witness :
    1 ≤ ([100, 101, 102] : List Nat).length ∧
    0 ≤ evbuffer_get_length ⟨[[97, 98, 99, 100], [101, 102, 103, 104]],
      false, false, 0⟩ ∧
    (∀ p : Nat,
      evbuffer_search ⟨[[97, 98, 99, 100], [101, 102, 103, 104]],
        false, false, 0⟩ [100, 101, 102] (some 0) = (p : Int) →
      0 ≤ p ∧ occursAt (evbuffer_contents ⟨[[97, 98, 99, 100],
        [101, 102, 103, 104]], false, false, 0⟩) [100, 101, 102] p ∧
      ∀ q, 0 ≤ q → q < p →
        ¬ occursAt (evbuffer_contents ⟨[[97, 98, 99, 100],
          [101, 102, 103, 104]], false, false, 0⟩) [100, 101, 102] q) :=
  ⟨by decide, by decide,
   (evbuffer_search_spec ⟨[[97, 98, 99, 100], [101, 102, 103, 104]],
     false, false, 0⟩ [100, 101, 102] 0 (by decide) (by decide)).2.1⟩

/-- C7: `readln` with the CRLF style returns the bytes of the first line
(everything before the first LF, minus an optional CR immediately before
it; the line itself contains no LF), consuming the line and its
terminator; it reports the line's length (the returned list's length);
with no complete line it returns nothing and the buffer is untouched.
Scenario S3 follows: "GET /\r\nHost: x\n\r\n" yields "GET /", then
"Host: x", then "", then nothing. -/
theorem evbuffer_readln_crlf_spec (b : Evbuffer) (hf : b.frontFrozen = false) :
    ((evbuffer_readln_crlf b = none ↔ 10 ∉ evbuffer_contents b) ∧
     (∀ line b2, evbuffer_readln_crlf b = some (line, b2) →
        10 ∉ line ∧
        (evbuffer_contents b = line ++ 10 :: evbuffer_contents b2 ∨
         evbuffer_contents b = line ++ 13 :: 10 :: evbuffer_contents b2))) ∧
    (evbuffer_readln_crlf
        ⟨[[71, 69, 84, 32, 47, 13, 10, 72, 111, 115, 116, 58, 32, 120,
           10, 13, 10]], false, false, 0⟩
      = some ([71, 69, 84, 32, 47],
          ⟨[[72, 111, 115, 116, 58, 32, 120, 10, 13, 10]],
           false, false, 0⟩) ∧
     evbuffer_readln_crlf
        ⟨[[72, 111, 115, 116, 58, 32, 120, 10, 13, 10]], false, false, 0⟩
      = some ([72, 111, 115, 116, 58, 32, 120],
          ⟨[[13, 10]], false, false, 0⟩) ∧
     evbuffer_readln_crlf ⟨[[13, 10]], false, false, 0⟩
      = some ([], ⟨[], false, false, 0⟩) ∧
     evbuffer_readln_crlf ⟨[], false, false, 0⟩ = none) := by
  have hread : evbuffer_readln_crlf b
      = Option.map (fun p : List Nat × List Nat => (p.1, readlnNext b p.2))
        (splitLineCRLF (evbuffer_contents b)) := by
    rw [evbuffer_readln_crlf, if_neg (by simp [hf])]
    cases splitLineCRLF (evbuffer_contents b) with
    | none => rfl
    | some p => obtain ⟨l0, r0⟩ := p; rfl
  refine ⟨?_, by decide, by decide, by decide, by decide⟩
  cases hsp : splitLineCRLF (evbuffer_contents b) with
  | none =>
    rw [hsp] at hread
    simp only [Option.map_none'] at hread
    refine ⟨iff_of_true hread ((splitLineCRLF_none _).mp hsp), ?_⟩
    intro line b2 hsome
    rw [hread] at hsome
    exact absurd hsome (by simp)
  | some p =>
    obtain ⟨line0, rest0⟩ := p
    rw [hsp] at hread
    simp only [Option.map_some'] at hread
    obtain ⟨hmem, hdec⟩ := splitLineCRLF_some _ _ _ hsp
    constructor
    · constructor
      · intro hcontra
        rw [hread] at hcontra
        exact absurd hcontra (by simp)
      · intro hno
        exfalso
        rcases hdec with hd | hd <;> (rw [hd] at hno; simp at hno)
    · intro line b2 hsome
      rw [hread] at hsome
      obtain ⟨h1, h2⟩ := Prod.mk.injEq .. ▸ Option.some.inj hsome
      subst h1
      have hc2 : evbuffer_contents b2
          = (evbuffer_contents b).drop
              ((evbuffer_contents b).length - rest0.length) := by
        rw [← h2]
        simp [readlnNext, evbuffer_contents, chainDrain_join]
      refine ⟨hmem, ?_⟩
      rcases hdec with hd | hd
      · left
        have hrest : evbuffer_contents b2 = rest0 := by
          rw [hc2, hd]
          have hamt : (line0 ++ 10 :: rest0).length - rest0.length
              = (line0 ++ [10]).length := by
            simp
            omega
          rw [hamt, show line0 ++ 10 :: rest0 = (line0 ++ [10]) ++ rest0 by
            simp]
          exact List.drop_left _ _
        rw [hrest, hd]
      · right
        have hrest : evbuffer_contents b2 = rest0 := by
          rw [hc2, hd]
          have hamt : (line0 ++ 13 :: 10 :: rest0).length - rest0.length
              = (line0 ++ [13, 10]).length := by
            simp
            omega
          rw [hamt, show line0 ++ 13 :: 10 :: rest0
              = (line0 ++ [13, 10]) ++ rest0 by simp]
          exact List.drop_left _ _
        rw [hrest, hd]

/-- C7 witness: the general readln characterisation applied to the
S3 request buffer. -/
theorem evbuffer_readln_crlf_spec_witness :
    ((evbuffer_readln_crlf ⟨[[71, 69, 84, 32, 47, 13, 10, 72, 111, 115,
        116, 58, 32, 120, 10, 13, 10]], false, false, 0⟩ = none ↔
      10 ∉ evbuffer_contents ⟨[[71, 69, 84, 32, 47, 13, 10, 72, 111, 115,
        116, 58, 32, 120, 10, 13, 10]], false, false, 0⟩) ∧
     (∀ line b2,
        evbuffer_readln_crlf ⟨[[71, 69, 84, 32, 47, 13, 10, 72, 111, 115,
          116, 58, 32, 120, 10, 13, 10]], false, false, 0⟩
          = some (line, b2) →
        10 ∉ line ∧
        (evbuffer_contents ⟨[[71, 69, 84, 32, 47, 13, 10, 72, 111, 115,
            116, 58, 32, 120, 10, 13, 10]], false, false, 0⟩
            = line ++ 10 :: evbuffer_contents b2 ∨
         evbuffer_contents ⟨[[71, 69, 84, 32, 47, 13, 10, 72, 111, 115,
            116, 58, 32, 120, 10, 13, 10]], false, false, 0⟩
            = line ++ 13 :: 10 :: evbuffer_contents b2))) :=
  (evbuffer_readln_crlf_spec ⟨[[71, 69, 84, 32, 47, 13, 10, 72, 111, 115,
    116, 58, 32, 120, 10, 13, 10]], false, false, 0⟩ rfl).1

/-- C8: for `n` at most the buffer's length, `pullup(buf, n)` leaves the
logical byte stream unchanged, is idempotent, and afterwards the first
`n` bytes all sit in the head segment (the single contiguous extent the
returned pointer addresses); `-1` requests the entire buffer. -/
theorem evbuffer_pullup_spec (b : Evbuffer) (n : Nat)
    (hn : n ≤ evbuffer_get_length b) :
    evbuffer_contents (evbuffer_pullup b (n : Int)) = evbuffer_contents b ∧
    evbuffer_pullup (evbuffer_pullup b (n : Int)) (n : Int)
      = evbuffer_pullup b (n : Int) ∧
    n ≤ (headSeg (evbuffer_pullup b (n : Int)).chain).length ∧
    (headSeg (evbuffer_pullup b (n : Int)).chain).take n
      = (evbuffer_contents b).take n ∧
    evbuffer_pullup b (-1)
      = evbuffer_pullup b ((evbuffer_get_length b : Nat) : Int) := by
  have hn2 : n ≤ b.chain.flatten.length := by
    rw [evbuffer_get_length_eq_contents] at hn
    exact hn
  have hneg : ¬((n : Int) < 0) := by
    exact Int.not_lt.mpr (Int.natCast_nonneg n)
  have hpn : ∀ b2 : Evbuffer, evbuffer_pullup b2 (n : Int)
      = { b2 with chain := chainPullup b2.chain n } := by
    intro b2
    rw [evbuffer_pullup]
    simp only [Int.toNat_natCast]
    rw [if_neg hneg]
  refine ⟨?_, ?_, ?_, ?_, ?_⟩
  · rw [hpn]
    simp only [evbuffer_contents]
    exact chainPullup_flatten b.chain n
  · rw [hpn, hpn]
    simp [chainPullup_idem b.chain n hn2]
  · rw [hpn]
    exact chainPullup_headSeg b.chain n hn2
  · rw [hpn]
    have hh := chainPullup_headSeg b.chain n hn2
    rw [headSeg_take _ _ hh, chainPullup_flatten]
    rfl
  · have hneg2 : ¬((evbuffer_get_length b : Int) < 0) :=
      Int.not_lt.mpr (Int.natCast_nonneg _)
    rw [evbuffer_pullup, evbuffer_pullup]
    simp only [Int.toNat_natCast]
    rw [if_pos (by norm_num), if_neg hneg2]

/-- C8 witness: pulling up three bytes of a four-byte two-segment
buffer. -/
theorem evbuffer_pullup_spec_witness :
    3 ≤ evbuffer_get_length ⟨[[1, 2], [3, 4]], false, false, 0⟩ ∧
    evbuffer_contents (evbuffer_pullup ⟨[[1, 2], [3, 4]], false, false, 0⟩
        ((3 : Nat) : Int))
      = evbuffer_contents ⟨[[1, 2], [3, 4]], false, false, 0⟩ ∧
    evbuffer_pullup (evbuffer_pullup ⟨[[1, 2], [3, 4]], false, false, 0⟩
        ((3 : Nat) : Int)) ((3 : Nat) : Int)
      = evbuffer_pullup ⟨[[1, 2], [3, 4]], false, false, 0⟩
          ((3 : Nat) : Int) ∧
    3 ≤ (headSeg (evbuffer_pullup ⟨[[1, 2], [3, 4]], false, false, 0⟩
        ((3 : Nat) : Int)).chain).length :=
  ⟨by decide,
   (evbuffer_pullup_spec ⟨[[1, 2], [3, 4]], false, false, 0⟩ 3 (by decide)).1,
   (evbuffer_pullup_spec ⟨[[1, 2], [3, 4]], false, false, 0⟩ 3
     (by decide)).2.1,
   (evbuffer_pullup_spec ⟨[[1, 2], [3, 4]], false, false, 0⟩ 3
     (by decide)).2.2.1⟩

/-- C9: with deferred callbacks, a sequence of successful mutations
before a single dispatch produces, for each enabled non-suspended entry,
exactly one invocation whose `n_added`/`n_deleted` are the sums over the
coalesced mutations and whose `orig_size` is the length at the start of
the window (a second immediate dispatch invokes nothing); three adds of
1, 2 and 3 bytes to an empty buffer yield one invocation
`(orig_size, n_added, n_deleted) = (0, 6, 0)`. -/
theorem evbuffer_deferred_callbacks_spec (b : Evbuffer) (es : List EvCbEntry)
    (ops : List EvOp) (hne : ops ≠ [])
    (heff : allEffective b ops = true)
    (hpend : ∀ e ∈ es, e.pending = none) :
    ((cbDispatch (runDefer b es ops).2).1
      = es.map (fun e =>
          if e.enabled = true ∧ e.suspended = false then
            some (evbuffer_get_length b, totalAdded b ops, totalDeleted b ops)
          else none)) ∧
    ((cbDispatch (cbDispatch (runDefer b es ops).2).2).1
      = es.map (fun _ => none)) ∧
    ((cbDispatch (runDefer evbuffer_new [⟨true, false, none⟩]
        [EvOp.add [97], EvOp.add [98, 98], EvOp.add [99, 99, 99]]).2).1
      = [some (0, 6, 0)]) := by
  refine ⟨?_, ?_, by decide⟩
  · rw [runDefer_snd, cbDispatch]
    simp only [List.map_map]
    refine List.map_congr_left ?_
    intro e he
    simp only [Function.comp_apply]
    by_cases hc : e.enabled = true ∧ e.suspended = false
    · have hcond : (entryRun b ops e).enabled = true ∧
          (entryRun b ops e).suspended = false := by
        rw [entryRun_enabled, entryRun_suspended]
        exact hc
      rw [if_pos hcond, if_pos hc]
      exact entryRun_pending_none ops b e (hpend e he) hc.1 hne heff
    · have hcond : ¬((entryRun b ops e).enabled = true ∧
          (entryRun b ops e).suspended = false) := by
        rw [entryRun_enabled, entryRun_suspended]
        exact hc
      rw [if_neg hcond, if_neg hc]
  · rw [runDefer_snd, cbDispatch_twice, List.map_map]
    rfl

/-- C9 witness: scenario S7, one enabled deferred callback and three
adds of 1, 2, 3 bytes to a fresh buffer, dispatched once. -/
theorem evbuffer_deferred_callbacks_spec_witness :
    ((cbDispatch (runDefer evbuffer_new [⟨true, false, none⟩]
        [EvOp.add [97], EvOp.add [98, 98], EvOp.add [99, 99, 99]]).2).1
      = ([⟨true, false, none⟩] : List EvCbEntry).map (fun e =>
          if e.enabled = true ∧ e.suspended = false then
            some (evbuffer_get_length evbuffer_new,
              totalAdded evbuffer_new
                [EvOp.add [97], EvOp.add [98, 98], EvOp.add [99, 99, 99]],
              totalDeleted evbuffer_new
                [EvOp.add [97], EvOp.add [98, 98], EvOp.add [99, 99, 99]])
          else none)) ∧
    ((cbDispatch (cbDispatch (runDefer evbuffer_new [⟨true, false, none⟩]
        [EvOp.add [97], EvOp.add [98, 98], EvOp.add [99, 99, 99]]).2).2).1
      = ([⟨true, false, none⟩] : List EvCbEntry).map (fun _ => none)) :=
  ⟨(evbuffer_deferred_callbacks_spec evbuffer_new [⟨true, false, none⟩]
      [EvOp.add [97], EvOp.add [98, 98], EvOp.add [99, 99, 99]]
      (by decide) (by decide) (by decide)).1,
   (evbuffer_deferred_callbacks_spec evbuffer_new [⟨true, false, none⟩]
      [EvOp.add [97], EvOp.add [98, 98], EvOp.add [99, 99, 99]]
      (by decide) (by decide) (by decide)).2.1⟩

/-- C10: calling `evbuffer_add_cb` with a null callback function
registers no new entry and returns no handle; instead it removes every
callback currently on the buffer, whereas a non-null callback is
appended as a new entry. -/
theorem evbuffer_add_cb_null_removes_all (cbs : List EvCbReg) (arg : Nat)
    (f : Nat) :
    evbuffer_add_cb cbs none arg = ([], none) ∧
    evbuffer_add_cb cbs (some f) arg
      = (cbs ++ [⟨f, arg⟩], some cbs.length) :=
  ⟨rfl, rfl⟩
